import Mathlib

/-!
Shallow embedding of the private note synchronization engine
(`yarn-project/aztec-rpc/src/note_processor/note_processor.ts`).

Field elements, addresses, hashes and keys are modelled as `Nat`;
encrypted log buffers as `List Nat`.  External collaborators (key store,
decryption, nullifier derivation, persistence store failure modes) are
supplied through an explicit environment `Env`.  Stateful code is modelled
by explicit state passing over `NoteProcessorState`, which also records a
trace of the collaborator calls the engine issues, in issue order.
-/

namespace NoteProc

/-- A raw encrypted log buffer (a byte buffer in the source). -/
abbrev Buffer := List Nat

/-- Model of `FunctionLogs`: the ordered raw log buffers emitted by one function call. -/
structure FunctionLogs where
  logs : List Buffer
  deriving DecidableEq, Repr

/-- Model of `TxL2Logs`: the ordered function-log groups of one transaction. -/
structure TxL2Logs where
  functionLogs : List FunctionLogs
  deriving DecidableEq, Repr

/-- Model of `L2BlockL2Logs`: the per-transaction log groups of one block,
index-aligned with the block's transactions. -/
structure L2BlockL2Logs where
  txLogs : List TxL2Logs
  deriving DecidableEq, Repr

/-- Snapshot of an append-only tree; the engine reads `nextAvailableLeafIndex`
of the private-data tree at the start of the block. -/
structure AppendOnlyTreeSnapshot where
  nextAvailableLeafIndex : Nat
  deriving DecidableEq, Repr

/-- One declared contract-deployment entry of a transaction. -/
structure ContractData where
  contractAddress : Nat
  deriving DecidableEq, Repr

/-- Model of `L2Block`: the block fields the note processor consumes. -/
structure L2Block where
  number : Nat
  hash : Nat
  startPrivateDataTreeSnapshot : AppendOnlyTreeSnapshot
  txHashes : List Nat
  newContractData : List (List ContractData)
  newNullifiers : List Nat
  deriving DecidableEq, Repr

/-- Model of `L2BlockContext`: wraps an `L2Block` (the source also caches hashes). -/
structure L2BlockContext where
  block : L2Block
  deriving DecidableEq, Repr

/-- Model of `blockContext.getTxHash(txIndex)`. -/
def L2BlockContext.getTxHash (ctx : L2BlockContext) (txIndex : Nat) : Option Nat :=
  ctx.block.txHashes[txIndex]?

/-- Model of `blockContext.getBlockHash()`. -/
def L2BlockContext.getBlockHash (ctx : L2BlockContext) : Nat :=
  ctx.block.hash

/-- Model of `block.getTx(txIndex).newContractData`. -/
def L2Block.getTxNewContractData (b : L2Block) (txIndex : Nat) : List ContractData :=
  (b.newContractData[txIndex]?).getD []

/-- Model of `NoteSpendingInfo`: the decrypted payload of a log. -/
structure NoteSpendingInfo where
  contractAddress : Nat
  storageSlot : Nat
  notePreimage : List Nat
  deriving DecidableEq, Repr

/-- Model of `NoteSpendingInfoDao`: a stored note record (decrypted payload plus
nullifier, leaf index and owning public key). -/
structure NoteSpendingInfoDao where
  contractAddress : Nat
  storageSlot : Nat
  notePreimage : List Nat
  nullifier : Nat
  index : Nat
  publicKey : Nat
  deriving DecidableEq, Repr

/-- Model of `TxDao`: a stored transaction record. -/
structure TxDao where
  txHash : Option Nat
  blockHash : Nat
  blockNumber : Nat
  origin : Nat
  contractAddress : Option Nat
  error : String
  deriving DecidableEq, Repr

/-- Failures a `process` call can propagate. -/
inductive Err where
  | lengthMismatch
  | keyNotFound
  | cryptoError
  | dbError
  deriving DecidableEq, Repr

/-- Collaborator calls the engine issues, recorded in issue order. -/
inductive Event where
  | getKey (publicKey : Nat)
  | addNotes (batch : List NoteSpendingInfoDao)
  | addTxs (batch : List TxDao)
  | removeNullified (nullifiers : List Nat) (owner : Nat)
  deriving DecidableEq, Repr

/-- Modelled from the spec: the Persistence Store for note and transaction
records.  Its code lives outside the shown sources (only the engine calls
it), so it is modelled from the spec's surface `addNoteBatch`, `addTxBatch`,
`removeNullified(nullifiers, owner) -> removedRecords`: batch inserts append,
and removal deletes exactly the stored notes of the given owner whose
nullifier is in the given list, returning the removed records. -/
structure Database where
  notes : List NoteSpendingInfoDao
  txs : List TxDao
  deriving DecidableEq, Repr

/-- Modelled from the spec: `addNoteBatch` persists the given note records. -/
def Database.addNoteSpendingInfoBatch (db : Database)
    (batch : List NoteSpendingInfoDao) : Database :=
  { db with notes := db.notes ++ batch }

/-- Modelled from the spec: `addTxBatch` persists the given tx records. -/
def Database.addTxs (db : Database) (batch : List TxDao) : Database :=
  { db with txs := db.txs ++ batch }

/-- Modelled from the spec: `removeNullified(nullifiers, owner)` removes every
stored note of `owner` whose nullifier is in `nullifiers` and returns the
removed records. -/
def Database.removeNullifiedNoteSpendingInfo (db : Database)
    (nullifiers : List Nat) (owner : Nat) :
    Database × List NoteSpendingInfoDao :=
  ({ db with notes :=
      db.notes.filter fun n => !(n.publicKey == owner && n.nullifier ∈ nullifiers) },
   db.notes.filter fun n => n.publicKey == owner && n.nullifier ∈ nullifiers)

/-- The external collaborators of the engine: key source, crypto adapter,
and the failure switches of the persistence store's three operations. -/
structure Env where
  getAccountPrivateKey : Nat → Except Err Nat
  tryDecrypt : Buffer → Nat → Option NoteSpendingInfo
  computeNullifier : Nat → Nat → List Nat → Except Err Nat
  siloNullifier : Nat → Nat → Except Err Nat
  addNotesFails : Bool
  addTxsFails : Bool
  removeFails : Bool

/-- The note processor's state: the sync watermark, the persistence store
contents, and the trace of collaborator calls issued so far. -/
structure NoteProcessorState where
  syncedToBlock : Nat
  db : Database
  trace : List Event
  deriving DecidableEq, Repr

/-- Model of `computeSiloedNullifier`: derive the raw nullifier from the decrypted
payload, then silo it against the contract address. -/
def computeSiloedNullifier (env : Env) (nsi : NoteSpendingInfo) : Except Err Nat :=
  match env.computeNullifier nsi.contractAddress nsi.storageSlot nsi.notePreimage with
  | .error e => .error e
  | .ok nullifier => env.siloNullifier nsi.contractAddress nullifier

/-- The mutable locals of the per-block decryption loop: the deduplicating
pertaining-transaction-index collection (as an insertion-ordered list), the
accumulated note records, and the running log counter `logIndexWithinBlock`. -/
structure BlockScanState where
  pertaining : List Nat
  daos : List NoteSpendingInfoDao
  counter : Nat
  deriving DecidableEq, Repr

/-- Model of `Set.add` on the insertion-ordered pertaining-index collection:
append the index unless already present. -/
def insertPertaining (l : List Nat) (i : Nat) : List Nat :=
  if i ∈ l then l else l ++ [i]

/-- The body of the innermost loop: try to decrypt one buffer; on success
record the pertaining tx index and push a note record carrying leaf index
`dataStartIndexForBlock + logIndexWithinBlock`; always bump the counter. -/
def scanBuffer (env : Env) (privateKey publicKey dataStart txIndex : Nat)
    (st : BlockScanState) (buf : Buffer) : Except Err BlockScanState :=
  match env.tryDecrypt buf privateKey with
  | none => .ok { st with counter := st.counter + 1 }
  | some nsi =>
    match computeSiloedNullifier env nsi with
    | .error e => .error e
    | .ok nullifier =>
      .ok { pertaining := insertPertaining st.pertaining txIndex,
            daos := st.daos ++
              [{ contractAddress := nsi.contractAddress,
                 storageSlot := nsi.storageSlot,
                 notePreimage := nsi.notePreimage,
                 nullifier := nullifier,
                 index := dataStart + st.counter,
                 publicKey := publicKey }],
            counter := st.counter + 1 }

/-- Innermost loop: `for (const logs of functionLogs.logs)`. -/
def scanBuffers (env : Env) (privateKey publicKey dataStart txIndex : Nat) :
    List Buffer → BlockScanState → Except Err BlockScanState
  | [], st => .ok st
  | b :: bs, st =>
    match scanBuffer env privateKey publicKey dataStart txIndex st b with
    | .error e => .error e
    | .ok st1 => scanBuffers env privateKey publicKey dataStart txIndex bs st1

/-- Middle loop: `for (const functionLogs of txFunctionLogs)`. -/
def scanFunctionLogs (env : Env) (privateKey publicKey dataStart txIndex : Nat) :
    List FunctionLogs → BlockScanState → Except Err BlockScanState
  | [], st => .ok st
  | fl :: fls, st =>
    match scanBuffers env privateKey publicKey dataStart txIndex fl.logs st with
    | .error e => .error e
    | .ok st1 => scanFunctionLogs env privateKey publicKey dataStart txIndex fls st1

/-- Outer loop: `for (indexOfTxInABlock = 0; ...)`, carrying the tx index. -/
def scanTxs (env : Env) (privateKey publicKey dataStart : Nat) (txIndex : Nat) :
    List TxL2Logs → BlockScanState → Except Err BlockScanState
  | [], st => .ok st
  | tx :: txs, st =>
    match scanFunctionLogs env privateKey publicKey dataStart txIndex tx.functionLogs st with
    | .error e => .error e
    | .ok st1 => scanTxs env privateKey publicKey dataStart (txIndex + 1) txs st1

/-- The whole per-block decryption-and-matching scan (lines 87-119 of the
source), starting from tx index 0 with empty accumulators and counter 0. -/
def scanBlockLogs (env : Env) (privateKey publicKey dataStart : Nat)
    (bl : L2BlockL2Logs) : Except Err BlockScanState :=
  scanTxs env privateKey publicKey dataStart 0 bl.txLogs
    { pertaining := [], daos := [], counter := 0 }

/-- The block's buffers tagged with their transaction index, in the fixed
nested iteration order of the scan, starting the tx numbering at `txIndex`. -/
def flattenTxs (txIndex : Nat) : List TxL2Logs → List (Nat × Buffer)
  | [] => []
  | tx :: txs =>
    ((tx.functionLogs.map FunctionLogs.logs).flatten.map fun b => (txIndex, b)) ++
      flattenTxs (txIndex + 1) txs

/-- All buffers of a block tagged with their transaction index, in scan order. -/
def flattenBlockLogs (bl : L2BlockL2Logs) : List (Nat × Buffer) :=
  flattenTxs 0 bl.txLogs

/-- The scan, re-expressed over the flattened tagged buffer list. -/
def scanFlat (env : Env) (privateKey publicKey dataStart : Nat) :
    List (Nat × Buffer) → BlockScanState → Except Err BlockScanState
  | [], st => .ok st
  | (txIndex, b) :: rest, st =>
    match scanBuffer env privateKey publicKey dataStart txIndex st b with
    | .error e => .error e
    | .ok st1 => scanFlat env privateKey publicKey dataStart rest st1

/-- Model of `ProcessedData`: one block's context, its deduplicated user-pertaining
transaction indices, and its accumulated note records. -/
structure ProcessedData where
  blockContext : L2BlockContext
  userPertainingTxIndices : List Nat
  noteSpendingInfoDaos : List NoteSpendingInfoDao
  deriving DecidableEq, Repr

/-- One iteration of the per-block loop of `process` (lines 85-126): fetch
the private key (recorded in the trace), scan the block's logs, and package
the result as `ProcessedData`. -/
def phase1Step (env : Env) (publicKey : Nat) (s : NoteProcessorState)
    (pair : L2BlockContext × L2BlockL2Logs) :
    NoteProcessorState × Except Err ProcessedData :=
  let s1 : NoteProcessorState := { s with trace := s.trace ++ [Event.getKey publicKey] }
  match env.getAccountPrivateKey publicKey with
  | .error e => (s1, .error e)
  | .ok privateKey =>
    let dataStart := pair.1.block.startPrivateDataTreeSnapshot.nextAvailableLeafIndex
    match scanBlockLogs env privateKey publicKey dataStart pair.2 with
    | .error e => (s1, .error e)
    | .ok st =>
      (s1, .ok { blockContext := pair.1,
                 userPertainingTxIndices := st.pertaining,
                 noteSpendingInfoDaos := st.daos })

/-- The per-block loop over the (block context, block logs) pairs, building
`blocksAndNoteSpendingInfo`; a failure aborts the loop and propagates. -/
def phase1 (env : Env) (publicKey : Nat) (s : NoteProcessorState) :
    List (L2BlockContext × L2BlockL2Logs) →
    NoteProcessorState × Except Err (List ProcessedData)
  | [] => (s, .ok [])
  | p :: ps =>
    match phase1Step env publicKey s p with
    | (s1, .error e) => (s1, .error e)
    | (s1, .ok pd) =>
      match phase1 env publicKey s1 ps with
      | (s2, .error e) => (s2, .error e)
      | (s2, .ok pds) => (s2, .ok (pd :: pds))

/-- The contract address of the transaction's first declared
contract-deployment entry (`newContractData[0].contractAddress`), 0 when
the entry is absent. -/
def firstContractAddress (b : L2Block) (txIndex : Nat) : Nat :=
  (((b.getTxNewContractData txIndex)[0]?).map ContractData.contractAddress).getD 0

/-- Lines 167-182: build one `TxDao` per user-pertaining transaction index;
`j` is the position within the pertaining-index list and is also used to
index the block's note records. -/
def buildTxDaos (address : Nat) (pd : ProcessedData) : List TxDao :=
  pd.userPertainingTxIndices.enum.map fun p =>
    let isContractDeployment := firstContractAddress pd.blockContext.block p.2 ≠ 0
    { txHash := pd.blockContext.getTxHash p.2,
      blockHash := pd.blockContext.getBlockHash,
      blockNumber := pd.blockContext.block.number,
      origin := address,
      contractAddress :=
        if isContractDeployment then
          (pd.noteSpendingInfoDaos[p.1]?).map NoteSpendingInfoDao.contractAddress
        else none,
      error := "" }

/-- Issue `db.addNoteSpendingInfoBatch`; the call is recorded in the trace,
then either rejected whole or committed atomically. -/
def issueAddNotes (env : Env) (s : NoteProcessorState)
    (batch : List NoteSpendingInfoDao) : NoteProcessorState × Option Err :=
  let s1 : NoteProcessorState := { s with trace := s.trace ++ [Event.addNotes batch] }
  if env.addNotesFails then (s1, some Err.dbError)
  else ({ s1 with db := s1.db.addNoteSpendingInfoBatch batch }, none)

/-- Issue `db.addTxs`; recorded in the trace, atomic per call. -/
def issueAddTxs (env : Env) (s : NoteProcessorState)
    (batch : List TxDao) : NoteProcessorState × Option Err :=
  let s1 : NoteProcessorState := { s with trace := s.trace ++ [Event.addTxs batch] }
  if env.addTxsFails then (s1, some Err.dbError)
  else ({ s1 with db := s1.db.addTxs batch }, none)

/-- Issue `db.removeNullifiedNoteSpendingInfo`; recorded in the trace,
atomic per call (the removed records are only logged by the source). -/
def issueRemoveNullified (env : Env) (s : NoteProcessorState)
    (nullifiers : List Nat) (owner : Nat) : NoteProcessorState × Option Err :=
  let s1 : NoteProcessorState :=
    { s with trace := s.trace ++ [Event.removeNullified nullifiers owner] }
  if env.removeFails then (s1, some Err.dbError)
  else ({ s1 with db := (s1.db.removeNullifiedNoteSpendingInfo nullifiers owner).1 }, none)

/-- Model of `processBlocksAndNoteSpendingInfo` (lines 158-198): accumulate the batch's
note records, tx records and new nullifiers across all blocks, then persist
notes (when any), then txs (when any), then request removal of nullified
notes for the engine's public key. -/
def processBlocksAndNoteSpendingInfo (env : Env) (publicKey address : Nat)
    (s : NoteProcessorState) (blocksAndNoteSpendingInfo : List ProcessedData) :
    NoteProcessorState × Option Err :=
  let noteSpendingInfoDaosBatch :=
    (blocksAndNoteSpendingInfo.map ProcessedData.noteSpendingInfoDaos).flatten
  let txDaos := (blocksAndNoteSpendingInfo.map (buildTxDaos address)).flatten
  let newNullifiers :=
    (blocksAndNoteSpendingInfo.map fun pd => pd.blockContext.block.newNullifiers).flatten
  match
    if noteSpendingInfoDaosBatch.isEmpty then (s, none)
    else issueAddNotes env s noteSpendingInfoDaosBatch with
  | (s1, some e) => (s1, some e)
  | (s1, none) =>
    match if txDaos.isEmpty then (s1, none) else issueAddTxs env s1 txDaos with
    | (s2, some e) => (s2, some e)
    | (s2, none) => issueRemoveNullified env s2 newNullifiers publicKey

/-- The number of the last block of a non-empty batch. -/
def lastBlockNumber (l2BlockContexts : List L2BlockContext) : Nat :=
  ((l2BlockContexts.getLast?).map fun ctx => ctx.block.number).getD 0

/-- Model of `process` (lines 72-132): reject a block/log count mismatch, no-op on the
empty batch, otherwise decrypt and match every block, reconcile the batch,
and finally set `syncedToBlock` to the last block's number.  The returned
state carries all effects issued before a failure; the second component is
the propagated failure, `none` on success. -/
def process (env : Env) (publicKey address : Nat) (s : NoteProcessorState)
    (l2BlockContexts : List L2BlockContext)
    (encryptedL2BlockLogs : List L2BlockL2Logs) :
    NoteProcessorState × Option Err :=
  if l2BlockContexts.length ≠ encryptedL2BlockLogs.length then
    (s, some Err.lengthMismatch)
  else if l2BlockContexts.isEmpty then
    (s, none)
  else
    match phase1 env publicKey s (l2BlockContexts.zip encryptedL2BlockLogs) with
    | (s1, .error e) => (s1, some e)
    | (s1, .ok blocksAndNoteSpendingInfo) =>
      match processBlocksAndNoteSpendingInfo env publicKey address s1
          blocksAndNoteSpendingInfo with
      | (s2, some e) => (s2, some e)
      | (s2, none) =>
        ({ s2 with syncedToBlock := lastBlockNumber l2BlockContexts }, none)

/-- Model of `isSynchronised` (lines 57-60): compare the freshly queried remote block
height with `syncedToBlock`. -/
def isSynchronised (remoteBlockHeight : Nat) (s : NoteProcessorState) : Bool :=
  s.syncedToBlock == remoteBlockHeight

/-- Whether a tagged buffer decrypts under the given private key. -/
def decryptsWith (env : Env) (privateKey : Nat) (p : Nat × Buffer) : Bool :=
  (env.tryDecrypt p.2 privateKey).isSome

/-- The leaf indices the scan assigns: `base + position` for every buffer
that decrypts, in scan order. -/
def matchedIndices (env : Env) (privateKey : Nat) : Nat → List (Nat × Buffer) → List Nat
  | _, [] => []
  | base, p :: rest =>
    if decryptsWith env privateKey p then
      base :: matchedIndices env privateKey (base + 1) rest
    else matchedIndices env privateKey (base + 1) rest

/-- The transaction indices of the buffers that decrypt, in scan order,
duplicates retained. -/
def matchedTxIndices (env : Env) (privateKey : Nat) (l : List (Nat × Buffer)) : List Nat :=
  (l.filter (decryptsWith env privateKey)).map Prod.fst

/-- A concrete decrypted payload for test scenarios. -/
def testNSI : NoteSpendingInfo :=
  { contractAddress := 11, storageSlot := 2, notePreimage := [3] }

/-- A concrete healthy environment: key 42 is returned for every public key,
only the buffer `[1]` decrypts, and nullifier derivation and all persistence
operations succeed. -/
def testEnv : Env :=
  { getAccountPrivateKey := fun _ => .ok 42
    tryDecrypt := fun buf _ => if buf = [1] then some testNSI else none
    computeNullifier := fun c slot pre => .ok (c + slot + pre.length)
    siloNullifier := fun c n => .ok (c * 100 + n)
    addNotesFails := false
    addTxsFails := false
    removeFails := false }

/-- Variant of `testEnv` with a failing key source. -/
def failKeyEnv : Env :=
  { testEnv with getAccountPrivateKey := fun _ => .error Err.keyNotFound }

/-- Variant of `testEnv` with a failing removal operation. -/
def failRemoveEnv : Env :=
  { testEnv with removeFails := true }

/-- Variant of `testEnv` whose raw-nullifier derivation always throws. -/
def failDeriveEnv : Env :=
  { testEnv with computeNullifier := fun _ _ _ => .error Err.cryptoError }

/-- Variant of `testEnv` with a failing note-batch insert. -/
def failAddNotesEnv : Env :=
  { testEnv with addNotesFails := true }

/-- Variant of `testEnv` with a failing tx-batch insert. -/
def failAddTxsEnv : Env :=
  { testEnv with addTxsFails := true }

/-- The fresh engine state: watermark 0, empty store, empty trace. -/
def initState : NoteProcessorState :=
  { syncedToBlock := 0, db := { notes := [], txs := [] }, trace := [] }

/-- An engine state already synced to block 5. -/
def highState : NoteProcessorState :=
  { initState with syncedToBlock := 5 }

/-- A concrete block numbered 1 with no transactions. -/
def cexBlock : L2Block :=
  { number := 1, hash := 100, startPrivateDataTreeSnapshot := ⟨0⟩,
    txHashes := [], newContractData := [], newNullifiers := [] }

/-- Context for `cexBlock`. -/
def cexBlockCtx : L2BlockContext := ⟨cexBlock⟩

/-- Logs of a block with no transactions. -/
def emptyBlockLogs : L2BlockL2Logs := ⟨[]⟩

/-- A concrete block numbered 7: one transaction (hash 70), a non-zero first
contract-deployment entry, data tree starting at leaf 100, and a new
nullifier equal to the one `testEnv` derives for `testNSI` (1114), so the
notes created from this block are spent within the same batch. -/
def witBlock : L2Block :=
  { number := 7, hash := 700, startPrivateDataTreeSnapshot := ⟨100⟩,
    txHashes := [70], newContractData := [[⟨55⟩]], newNullifiers := [1114] }

/-- Context for `witBlock`. -/
def witBlockCtx : L2BlockContext := ⟨witBlock⟩

/-- Logs of `witBlock`: one transaction with two function-log groups holding
buffers `[1]`, `[2]` and `[1]`; under `testEnv` the first and third decrypt. -/
def witBlockLogs : L2BlockL2Logs :=
  ⟨[⟨[⟨[[1], [2]]⟩, ⟨[[1]]⟩]⟩]⟩

/-- The two note records the scan produces from `witBlockLogs` under
`testEnv` (leaf indices 100 and 102). -/
def witDaos : List NoteSpendingInfoDao :=
  [{ contractAddress := 11, storageSlot := 2, notePreimage := [3],
     nullifier := 1114, index := 100, publicKey := 1 },
   { contractAddress := 11, storageSlot := 2, notePreimage := [3],
     nullifier := 1114, index := 102, publicKey := 1 }]

/-- The single transaction record built from `witBlock` for address 2. -/
def witTxDao : TxDao :=
  { txHash := some 70, blockHash := 700, blockNumber := 7, origin := 2,
    contractAddress := some 11, error := "" }

/-- The per-block result of processing `witBlockCtx`/`witBlockLogs` under
`testEnv` with public key 1. -/
def witPD : ProcessedData :=
  { blockContext := witBlockCtx, userPertainingTxIndices := [0],
    noteSpendingInfoDaos := witDaos }

/-- The engine state after `process testEnv 1 2 initState [witBlockCtx]
[witBlockLogs]`: both same-batch-nullified notes are gone from the store. -/
def witResultState : NoteProcessorState :=
  { syncedToBlock := 7,
    db := { notes := [], txs := [witTxDao] },
    trace := [Event.getKey 1, Event.addNotes witDaos, Event.addTxs [witTxDao],
              Event.removeNullified [1114] 1] }

/-- The engine state after processing `cexBlockCtx` from `highState`. -/
def cexResultState : NoteProcessorState :=
  { syncedToBlock := 1,
    db := { notes := [], txs := [] },
    trace := [Event.getKey 1, Event.removeNullified [] 1] }

/-- The engine state after a failed key fetch on the first block. -/
def keyFailState : NoteProcessorState :=
  { syncedToBlock := 5,
    db := { notes := [], txs := [] },
    trace := [Event.getKey 1] }

theorem scanFlat_append (env : Env) (privateKey publicKey dataStart : Nat)
    (l1 l2 : List (Nat × Buffer)) (st : BlockScanState) :
    scanFlat env privateKey publicKey dataStart (l1 ++ l2) st =
      match scanFlat env privateKey publicKey dataStart l1 st with
      | .error e => .error e
      | .ok st1 => scanFlat env privateKey publicKey dataStart l2 st1 := by
  induction l1 generalizing st with
  | nil => rfl
  | cons p rest ih =>
    obtain ⟨txIndex, b⟩ := p
    simp only [List.cons_append, scanFlat]
    cases scanBuffer env privateKey publicKey dataStart txIndex st b with
    | error e => rfl
    | ok st1 => exact ih st1

theorem scanBuffers_eq_scanFlat (env : Env) (privateKey publicKey dataStart txIndex : Nat)
    (bufs : List Buffer) (st : BlockScanState) :
    scanBuffers env privateKey publicKey dataStart txIndex bufs st =
      scanFlat env privateKey publicKey dataStart (bufs.map fun b => (txIndex, b)) st := by
  induction bufs generalizing st with
  | nil => rfl
  | cons b bs ih =>
    simp only [scanBuffers, List.map_cons, scanFlat]
    cases scanBuffer env privateKey publicKey dataStart txIndex st b with
    | error e => rfl
    | ok st1 => exact ih st1

theorem scanFunctionLogs_eq_scanFlat (env : Env)
    (privateKey publicKey dataStart txIndex : Nat)
    (fls : List FunctionLogs) (st : BlockScanState) :
    scanFunctionLogs env privateKey publicKey dataStart txIndex fls st =
      scanFlat env privateKey publicKey dataStart
        ((fls.map FunctionLogs.logs).flatten.map fun b => (txIndex, b)) st := by
  induction fls generalizing st with
  | nil => rfl
  | cons fl fls ih =>
    rw [scanFunctionLogs, List.map_cons, List.flatten_cons, List.map_append,
      scanFlat_append, scanBuffers_eq_scanFlat]
    cases scanFlat env privateKey publicKey dataStart
        (fl.logs.map fun b => (txIndex, b)) st with
    | error e => rfl
    | ok st1 => exact ih st1

theorem scanTxs_eq_scanFlat (env : Env) (privateKey publicKey dataStart : Nat) :
    ∀ (txs : List TxL2Logs) (txIndex : Nat) (st : BlockScanState),
    scanTxs env privateKey publicKey dataStart txIndex txs st =
      scanFlat env privateKey publicKey dataStart (flattenTxs txIndex txs) st := by
  intro txs
  induction txs with
  | nil => intro txIndex st; rfl
  | cons tx txs ih =>
    intro txIndex st
    rw [scanTxs, flattenTxs, scanFlat_append, scanFunctionLogs_eq_scanFlat]
    cases scanFlat env privateKey publicKey dataStart
        ((tx.functionLogs.map FunctionLogs.logs).flatten.map fun b => (txIndex, b)) st with
    | error e => rfl
    | ok st1 => exact ih (txIndex + 1) st1

theorem scanBlockLogs_eq_scanFlat (env : Env) (privateKey publicKey dataStart : Nat)
    (bl : L2BlockL2Logs) :
    scanBlockLogs env privateKey publicKey dataStart bl =
      scanFlat env privateKey publicKey dataStart (flattenBlockLogs bl)
        { pertaining := [], daos := [], counter := 0 } :=
  scanTxs_eq_scanFlat env privateKey publicKey dataStart bl.txLogs 0 _

theorem scanFlat_ok (env : Env) (privateKey publicKey dataStart : Nat) :
    ∀ (l : List (Nat × Buffer)) (st st' : BlockScanState),
    scanFlat env privateKey publicKey dataStart l st = .ok st' →
    st'.counter = st.counter + l.length ∧
    st'.daos.map NoteSpendingInfoDao.index =
      st.daos.map NoteSpendingInfoDao.index ++
        matchedIndices env privateKey (dataStart + st.counter) l ∧
    st'.daos.length =
      st.daos.length + (l.filter (decryptsWith env privateKey)).length ∧
    st'.pertaining = (matchedTxIndices env privateKey l).foldl insertPertaining st.pertaining := by
  intro l
  induction l with
  | nil =>
    intro st st' h
    obtain rfl : st = st' := by simpa [scanFlat] using h
    simp [matchedIndices, matchedTxIndices]
  | cons p rest ih =>
    intro st st' h
    obtain ⟨t, b⟩ := p
    rw [scanFlat] at h
    cases hd : env.tryDecrypt b privateKey with
    | none =>
      simp only [scanBuffer, hd] at h
      obtain ⟨hc, hidx, hlen, hpert⟩ := ih _ _ h
      dsimp only at hc hidx hlen hpert
      refine ⟨by simp only [List.length_cons]; omega, ?_, ?_, ?_⟩
      · rw [hidx]
        simp only [matchedIndices, decryptsWith, hd, Option.isSome_none, Bool.false_eq_true,
          if_false, Nat.add_assoc]
      · rw [hlen]
        simp [List.filter_cons, decryptsWith, hd]
      · rw [hpert]
        simp [matchedTxIndices, List.filter_cons, decryptsWith, hd]
    | some nsi =>
      simp only [scanBuffer, hd] at h
      cases hn : computeSiloedNullifier env nsi with
      | error e => rw [hn] at h; cases h
      | ok nullifier =>
        rw [hn] at h
        obtain ⟨hc, hidx, hlen, hpert⟩ := ih _ _ h
        dsimp only at hc hidx hlen hpert
        refine ⟨by simp only [List.length_cons]; omega, ?_, ?_, ?_⟩
        · rw [hidx]
          simp [matchedIndices, decryptsWith, hd, Nat.add_assoc]
        · rw [hlen]
          simp [List.filter_cons, decryptsWith, hd]
          omega
        · rw [hpert]
          simp [matchedTxIndices, List.filter_cons, decryptsWith, hd]

theorem matchedIndices_eq_enumFrom (env : Env) (privateKey : Nat) :
    ∀ (l : List (Nat × Buffer)) (base : Nat),
    matchedIndices env privateKey base l =
      ((l.enumFrom base).filter fun q => decryptsWith env privateKey q.2).map Prod.fst := by
  intro l
  induction l with
  | nil => intro base; rfl
  | cons p rest ih =>
    intro base
    rw [List.enumFrom_cons]
    by_cases hd : decryptsWith env privateKey p
    · simp [matchedIndices, hd, List.filter_cons, ih]
    · simp [matchedIndices, hd, List.filter_cons, ih]

theorem mem_insertPertaining (acc : List Nat) (x t : Nat) :
    t ∈ insertPertaining acc x ↔ t ∈ acc ∨ t = x := by
  unfold insertPertaining
  split
  · exact ⟨Or.inl, fun h => h.elim id fun ht => ht ▸ ‹x ∈ acc›⟩
  · simp

theorem mem_foldl_insertPertaining :
    ∀ (xs acc : List Nat) (t : Nat),
    t ∈ xs.foldl insertPertaining acc ↔ t ∈ acc ∨ t ∈ xs := by
  intro xs
  induction xs with
  | nil => simp
  | cons x xs ih =>
    intro acc t
    rw [List.foldl_cons, ih, mem_insertPertaining]
    simp [or_assoc]

theorem nodup_insertPertaining (acc : List Nat) (x : Nat) (h : acc.Nodup) :
    (insertPertaining acc x).Nodup := by
  unfold insertPertaining
  split
  · exact h
  · simp [List.nodup_append, h, ‹x ∉ acc›]

theorem nodup_foldl_insertPertaining :
    ∀ (xs acc : List Nat), acc.Nodup → (xs.foldl insertPertaining acc).Nodup := by
  intro xs
  induction xs with
  | nil => intro acc h; exact h
  | cons x xs ih =>
    intro acc h
    exact ih _ (nodup_insertPertaining acc x h)

theorem length_insertPertaining_le (acc : List Nat) (x : Nat) :
    (insertPertaining acc x).length ≤ acc.length + 1 := by
  unfold insertPertaining
  split
  · omega
  · simp

theorem length_foldl_insertPertaining :
    ∀ (xs acc : List Nat), (xs.foldl insertPertaining acc).length ≤ acc.length + xs.length := by
  intro xs
  induction xs with
  | nil => simp
  | cons x xs ih =>
    intro acc
    calc (List.foldl insertPertaining (insertPertaining acc x) xs).length ≤
        (insertPertaining acc x).length + xs.length := ih _
      _ ≤ acc.length + (x :: xs).length := by
          have := length_insertPertaining_le acc x
          simp only [List.length_cons]
          omega

theorem phase1Step_fst (env : Env) (publicKey : Nat) (s : NoteProcessorState)
    (pair : L2BlockContext × L2BlockL2Logs) :
    (phase1Step env publicKey s pair).1 =
      { s with trace := s.trace ++ [Event.getKey publicKey] } := by
  simp only [phase1Step]
  split
  · rfl
  · split <;> rfl

theorem phase1Step_ok (env : Env) (publicKey : Nat) (s : NoteProcessorState)
    (pair : L2BlockContext × L2BlockL2Logs) (s1 : NoteProcessorState) (pd : ProcessedData)
    (h : phase1Step env publicKey s pair = (s1, .ok pd)) :
    ∃ privateKey st,
      env.getAccountPrivateKey publicKey = .ok privateKey ∧
      scanBlockLogs env privateKey publicKey
        pair.1.block.startPrivateDataTreeSnapshot.nextAvailableLeafIndex pair.2 = .ok st ∧
      pd = { blockContext := pair.1, userPertainingTxIndices := st.pertaining,
             noteSpendingInfoDaos := st.daos } := by
  simp only [phase1Step] at h
  split at h
  next e hk => simp at h
  next privateKey hk =>
    split at h
    next e hs => simp at h
    next st hs =>
      simp only [Prod.mk.injEq, Except.ok.injEq] at h
      exact ⟨privateKey, st, hk, hs, h.2.symm⟩

theorem phase1_ok (env : Env) (publicKey : Nat) :
    ∀ (pairs : List (L2BlockContext × L2BlockL2Logs)) (s s' : NoteProcessorState)
      (pds : List ProcessedData),
    phase1 env publicKey s pairs = (s', .ok pds) →
    pds.length = pairs.length ∧
    pds.map ProcessedData.blockContext = pairs.map Prod.fst ∧
    ∀ (i : Nat) (pair : L2BlockContext × L2BlockL2Logs), pairs[i]? = some pair →
      ∃ privateKey st,
        env.getAccountPrivateKey publicKey = .ok privateKey ∧
        scanBlockLogs env privateKey publicKey
          pair.1.block.startPrivateDataTreeSnapshot.nextAvailableLeafIndex pair.2 = .ok st ∧
        pds[i]? = some { blockContext := pair.1, userPertainingTxIndices := st.pertaining,
                         noteSpendingInfoDaos := st.daos } := by
  intro pairs
  induction pairs with
  | nil =>
    intro s s' pds h
    simp only [phase1, Prod.mk.injEq, Except.ok.injEq] at h
    obtain ⟨rfl, rfl⟩ := h
    refine ⟨rfl, rfl, ?_⟩
    intro i pair hp
    simp at hp
  | cons p ps ih =>
    intro s s' pds h
    rw [phase1] at h
    cases h1 : phase1Step env publicKey s p with
    | mk s1 r =>
      rw [h1] at h
      cases r with
      | error e => simp at h
      | ok pd =>
        simp only [] at h
        cases h2 : phase1 env publicKey s1 ps with
        | mk s2 r2 =>
          rw [h2] at h
          cases r2 with
          | error e => simp at h
          | ok pds' =>
            simp only [Prod.mk.injEq, Except.ok.injEq] at h
            obtain ⟨rfl, rfl⟩ := h
            obtain ⟨hlen, hbc, hall⟩ := ih s1 s2 pds' h2
            obtain ⟨privateKey, st, hk, hs, rfl⟩ := phase1Step_ok _ _ _ _ _ _ h1
            refine ⟨by simp [hlen], by simp [hbc], ?_⟩
            intro i pair hp
            cases i with
            | zero =>
              simp only [List.getElem?_cons_zero, Option.some.injEq] at hp
              subst hp
              exact ⟨privateKey, st, hk, hs, by simp⟩
            | succ n =>
              simp only [List.getElem?_cons_succ] at hp ⊢
              exact hall n pair hp

theorem phase1_frame (env : Env) (publicKey : Nat) :
    ∀ (pairs : List (L2BlockContext × L2BlockL2Logs)) (s : NoteProcessorState),
    (phase1 env publicKey s pairs).1.db = s.db ∧
    (phase1 env publicKey s pairs).1.syncedToBlock = s.syncedToBlock ∧
    ∃ n, n ≤ pairs.length ∧
      (phase1 env publicKey s pairs).1.trace =
        s.trace ++ List.replicate n (Event.getKey publicKey) ∧
      ∀ pds, (phase1 env publicKey s pairs).2 = .ok pds → n = pairs.length := by
  intro pairs
  induction pairs with
  | nil =>
    intro s
    exact ⟨rfl, rfl, 0, by simp, by simp [phase1], fun pds h => rfl⟩
  | cons p ps ih =>
    intro s
    have hs1 := phase1Step_fst env publicKey s p
    rw [phase1]
    cases h1 : phase1Step env publicKey s p with
    | mk s1 r =>
      rw [h1] at hs1
      dsimp only at hs1
      cases r with
      | error e =>
        subst hs1
        refine ⟨rfl, rfl, 1, by simp, by simp [List.replicate], ?_⟩
        intro pds h
        cases h
      | ok pd =>
        simp only []
        obtain ⟨hdb, hsync, n, hn, htr, hok⟩ := ih s1
        cases h2 : phase1 env publicKey s1 ps with
        | mk s2 r2 =>
          rw [h2] at hdb hsync htr hok
          dsimp only at hdb hsync htr hok
          have htrace : s2.trace =
              s.trace ++ List.replicate (n + 1) (Event.getKey publicKey) := by
            rw [htr, hs1]
            simp [List.replicate_succ, List.append_assoc]
          cases r2 with
          | error e =>
            refine ⟨hdb.trans (by rw [hs1]), hsync.trans (by rw [hs1]), n + 1,
              by simp; omega, htrace, ?_⟩
            intro pds h
            cases h
          | ok pds' =>
            refine ⟨hdb.trans (by rw [hs1]), hsync.trans (by rw [hs1]), n + 1,
              by simp; omega, htrace, ?_⟩
            intro pds h
            simp [hok pds' rfl]

theorem issueAddNotes_spec (env : Env) (s : NoteProcessorState)
    (batch : List NoteSpendingInfoDao) :
    (issueAddNotes env s batch).1.syncedToBlock = s.syncedToBlock ∧
    (issueAddNotes env s batch).1.trace = s.trace ++ [Event.addNotes batch] ∧
    ((issueAddNotes env s batch).2 = none ↔ env.addNotesFails = false) ∧
    ((issueAddNotes env s batch).2 = none →
      (issueAddNotes env s batch).1.db = s.db.addNoteSpendingInfoBatch batch) := by
  unfold issueAddNotes
  cases henv : env.addNotesFails <;> simp

theorem issueAddTxs_spec (env : Env) (s : NoteProcessorState) (batch : List TxDao) :
    (issueAddTxs env s batch).1.syncedToBlock = s.syncedToBlock ∧
    (issueAddTxs env s batch).1.trace = s.trace ++ [Event.addTxs batch] ∧
    ((issueAddTxs env s batch).2 = none ↔ env.addTxsFails = false) ∧
    ((issueAddTxs env s batch).2 = none →
      (issueAddTxs env s batch).1.db.notes = s.db.notes) := by
  unfold issueAddTxs
  cases henv : env.addTxsFails <;> simp [Database.addTxs]

theorem issueRemoveNullified_spec (env : Env) (s : NoteProcessorState)
    (nullifiers : List Nat) (owner : Nat) :
    (issueRemoveNullified env s nullifiers owner).1.syncedToBlock = s.syncedToBlock ∧
    (issueRemoveNullified env s nullifiers owner).1.trace =
      s.trace ++ [Event.removeNullified nullifiers owner] ∧
    ((issueRemoveNullified env s nullifiers owner).2 = none ↔ env.removeFails = false) ∧
    ((issueRemoveNullified env s nullifiers owner).2 = none →
      (issueRemoveNullified env s nullifiers owner).1.db.notes =
        s.db.notes.filter fun n => !(n.publicKey == owner && n.nullifier ∈ nullifiers)) := by
  unfold issueRemoveNullified
  cases henv : env.removeFails <;> simp [Database.removeNullifiedNoteSpendingInfo]

theorem stepNotes_spec (env : Env) (s : NoteProcessorState)
    (batch : List NoteSpendingInfoDao) :
    (if batch.isEmpty then (s, none) else issueAddNotes env s batch).1.syncedToBlock =
      s.syncedToBlock ∧
    (if batch.isEmpty then (s, none) else issueAddNotes env s batch).1.trace =
      s.trace ++ (if batch.isEmpty then [] else [Event.addNotes batch]) ∧
    ((if batch.isEmpty then (s, none) else issueAddNotes env s batch).2 = none →
      (if batch.isEmpty then (s, none) else issueAddNotes env s batch).1.db =
        s.db.addNoteSpendingInfoBatch batch) := by
  by_cases hb : batch.isEmpty
  · have hnil : batch = [] := List.isEmpty_iff.mp hb
    subst hnil
    cases hdb : s.db with
    | mk notes txs => simp [Database.addNoteSpendingInfoBatch, hdb]
  · simp only [hb, if_false]
    exact ⟨(issueAddNotes_spec env s batch).1, (issueAddNotes_spec env s batch).2.1,
      (issueAddNotes_spec env s batch).2.2.2⟩

theorem stepTxs_spec (env : Env) (s : NoteProcessorState) (batch : List TxDao) :
    (if batch.isEmpty then (s, none) else issueAddTxs env s batch).1.syncedToBlock =
      s.syncedToBlock ∧
    (if batch.isEmpty then (s, none) else issueAddTxs env s batch).1.trace =
      s.trace ++ (if batch.isEmpty then [] else [Event.addTxs batch]) ∧
    ((if batch.isEmpty then (s, none) else issueAddTxs env s batch).2 = none →
      (if batch.isEmpty then (s, none) else issueAddTxs env s batch).1.db.notes =
        s.db.notes) := by
  by_cases hb : batch.isEmpty
  · simp [hb]
  · simp only [hb, if_false]
    exact ⟨(issueAddTxs_spec env s batch).1, (issueAddTxs_spec env s batch).2.1,
      (issueAddTxs_spec env s batch).2.2.2⟩

theorem processBlocks_syncedToBlock (env : Env) (publicKey address : Nat)
    (s : NoteProcessorState) (pds : List ProcessedData) :
    (processBlocksAndNoteSpendingInfo env publicKey address s pds).1.syncedToBlock =
      s.syncedToBlock := by
  rw [processBlocksAndNoteSpendingInfo]
  cases h1 : (if ((pds.map ProcessedData.noteSpendingInfoDaos).flatten).isEmpty then (s, none)
      else issueAddNotes env s ((pds.map ProcessedData.noteSpendingInfoDaos).flatten)) with
  | mk s1 e1 =>
    have hs1 : s1.syncedToBlock = s.syncedToBlock := by
      have := (stepNotes_spec env s ((pds.map ProcessedData.noteSpendingInfoDaos).flatten)).1
      rw [h1] at this
      exact this
    cases e1 with
    | some e => exact hs1
    | none =>
      dsimp only
      cases h2 : (if ((pds.map (buildTxDaos address)).flatten).isEmpty then (s1, none)
          else issueAddTxs env s1 ((pds.map (buildTxDaos address)).flatten)) with
      | mk s2 e2 =>
        have hs2 : s2.syncedToBlock = s1.syncedToBlock := by
          have := (stepTxs_spec env s1 ((pds.map (buildTxDaos address)).flatten)).1
          rw [h2] at this
          exact this
        cases e2 with
        | some e => exact hs2.trans hs1
        | none =>
          dsimp only
          have := (issueRemoveNullified_spec env s2
            ((pds.map fun pd => pd.blockContext.block.newNullifiers).flatten) publicKey).1
          exact this.trans (hs2.trans hs1)

theorem processBlocks_ok (env : Env) (publicKey address : Nat)
    (s s2 : NoteProcessorState) (pds : List ProcessedData)
    (h : processBlocksAndNoteSpendingInfo env publicKey address s pds = (s2, none)) :
    env.removeFails = false ∧
    s2.syncedToBlock = s.syncedToBlock ∧
    s2.db.notes =
      (s.db.notes ++ (pds.map ProcessedData.noteSpendingInfoDaos).flatten).filter
        (fun n => !(n.publicKey == publicKey &&
          n.nullifier ∈ (pds.map fun pd => pd.blockContext.block.newNullifiers).flatten)) ∧
    s2.trace = s.trace ++
      (if ((pds.map ProcessedData.noteSpendingInfoDaos).flatten).isEmpty then []
       else [Event.addNotes ((pds.map ProcessedData.noteSpendingInfoDaos).flatten)]) ++
      (if ((pds.map (buildTxDaos address)).flatten).isEmpty then []
       else [Event.addTxs ((pds.map (buildTxDaos address)).flatten)]) ++
      [Event.removeNullified ((pds.map fun pd => pd.blockContext.block.newNullifiers).flatten)
        publicKey] := by
  rw [processBlocksAndNoteSpendingInfo] at h
  cases h1 : (if ((pds.map ProcessedData.noteSpendingInfoDaos).flatten).isEmpty then (s, none)
      else issueAddNotes env s ((pds.map ProcessedData.noteSpendingInfoDaos).flatten)) with
  | mk s1 e1 =>
    rw [h1] at h
    obtain ⟨hsync1, htr1, hdb1⟩ :=
      stepNotes_spec env s ((pds.map ProcessedData.noteSpendingInfoDaos).flatten)
    rw [h1] at hsync1 htr1 hdb1
    dsimp only at hsync1 htr1 hdb1
    cases e1 with
    | some e => simp at h
    | none =>
      have hdb1' := hdb1 rfl
      dsimp only at h
      cases h2 : (if ((pds.map (buildTxDaos address)).flatten).isEmpty then (s1, none)
          else issueAddTxs env s1 ((pds.map (buildTxDaos address)).flatten)) with
      | mk s2' e2 =>
        rw [h2] at h
        obtain ⟨hsync2, htr2, hdb2⟩ :=
          stepTxs_spec env s1 ((pds.map (buildTxDaos address)).flatten)
        rw [h2] at hsync2 htr2 hdb2
        dsimp only at hsync2 htr2 hdb2
        cases e2 with
        | some e => simp at h
        | none =>
          have hdb2' := hdb2 rfl
          dsimp only at h
          obtain ⟨hsync3, htr3, hok3, hdb3⟩ :=
            issueRemoveNullified_spec env s2'
              ((pds.map fun pd => pd.blockContext.block.newNullifiers).flatten) publicKey
          rw [h] at hsync3 htr3 hok3 hdb3
          dsimp only at hsync3 htr3 hok3 hdb3
          refine ⟨hok3.mp rfl, by rw [hsync3, hsync2, hsync1], ?_, ?_⟩
          · rw [hdb3 rfl, hdb2', hdb1']
            simp [Database.addNoteSpendingInfoBatch]
          · rw [htr3, htr2, htr1]

theorem process_ok_inv (env : Env) (publicKey address : Nat) (s : NoteProcessorState)
    (blocks : List L2BlockContext) (logs : List L2BlockL2Logs) (s' : NoteProcessorState)
    (h : process env publicKey address s blocks logs = (s', none)) (hne : blocks ≠ []) :
    blocks.length = logs.length ∧
    ∃ s1 pds s2,
      phase1 env publicKey s (blocks.zip logs) = (s1, .ok pds) ∧
      processBlocksAndNoteSpendingInfo env publicKey address s1 pds = (s2, none) ∧
      s' = { s2 with syncedToBlock := lastBlockNumber blocks } := by
  rw [process] at h
  split at h
  next hlen => simp at h
  next hlen =>
    rw [not_ne_iff] at hlen
    split at h
    next hempty => exact absurd (List.isEmpty_iff.mp hempty) hne
    next hempty =>
      refine ⟨hlen, ?_⟩
      cases h1 : phase1 env publicKey s (blocks.zip logs) with
      | mk s1 r =>
        rw [h1] at h
        cases r with
        | error e => simp at h
        | ok pds =>
          dsimp only at h
          cases h2 : processBlocksAndNoteSpendingInfo env publicKey address s1 pds with
          | mk s2 e2 =>
            rw [h2] at h
            cases e2 with
            | some e => simp at h
            | none =>
              dsimp only at h
              simp only [Prod.mk.injEq] at h
              exact ⟨s1, pds, s2, rfl, h2, h.1.symm⟩

theorem process_err_syncedToBlock (env : Env) (publicKey address : Nat)
    (s : NoteProcessorState) (blocks : List L2BlockContext) (logs : List L2BlockL2Logs)
    (s' : NoteProcessorState) (e : Err)
    (h : process env publicKey address s blocks logs = (s', some e)) :
    s'.syncedToBlock = s.syncedToBlock := by
  rw [process] at h
  split at h
  next hlen =>
    simp only [Prod.mk.injEq] at h
    rw [← h.1]
  next hlen =>
    split at h
    next hempty => simp at h
    next hempty =>
      cases h1 : phase1 env publicKey s (blocks.zip logs) with
      | mk s1 r =>
        rw [h1] at h
        have hf := (phase1_frame env publicKey (blocks.zip logs) s).2.1
        rw [h1] at hf
        dsimp only at hf
        cases r with
        | error e2 =>
          simp only [Prod.mk.injEq, Option.some.injEq] at h
          rw [← h.1]
          exact hf
        | ok pds =>
          dsimp only at h
          cases h2 : processBlocksAndNoteSpendingInfo env publicKey address s1 pds with
          | mk s2 e2 =>
            rw [h2] at h
            have hs2 := processBlocks_syncedToBlock env publicKey address s1 pds
            rw [h2] at hs2
            dsimp only at hs2
            cases e2 with
            | some e3 =>
              simp only [Prod.mk.injEq, Option.some.injEq] at h
              rw [← h.1]
              exact hs2.trans hf
            | none => simp at h

/-- C9: for the empty batch (zero blocks and zero log collections), `process`
is a no-op: it returns successfully and leaves the entire engine state —
watermark, store and call trace — unchanged, so no persistence call and no
key-source call is issued. -/
theorem process_empty_batch_noop (env : Env) (publicKey address : Nat)
    (s : NoteProcessorState) :
    process env publicKey address s [] [] = (s, none) := by
  rw [process]
  simp

/-- C10: `isSynchronised` returns `true` exactly when `syncedToBlock` equals
the freshly queried remote block height, and `false` exactly when it differs
— in particular it returns `false` when the local watermark is strictly
greater than the remote height. -/
theorem isSynchronised_iff (remoteBlockHeight : Nat) (s : NoteProcessorState) :
    (isSynchronised remoteBlockHeight s = true ↔ s.syncedToBlock = remoteBlockHeight) ∧
    (isSynchronised remoteBlockHeight s = false ↔ s.syncedToBlock ≠ remoteBlockHeight) := by
  constructor <;> simp [isSynchronised]

/-- C7: whenever the number of block contexts differs from the number of
encrypted-log collections, `process` fails with the length-mismatch error and
returns the state completely unchanged — so no decryption is attempted, no
collaborator is invoked, no persistence call is issued, and `syncedToBlock`
keeps its value. -/
theorem process_length_mismatch_rejected (env : Env) (publicKey address : Nat)
    (s : NoteProcessorState) (blocks : List L2BlockContext) (logs : List L2BlockL2Logs)
    (h : blocks.length ≠ logs.length) :
    process env publicKey address s blocks logs = (s, some Err.lengthMismatch) := by
  rw [process]
  simp [h]

/-- C7 witness: one block against zero log collections is rejected with the
length-mismatch error and the state is returned unchanged. -/
theorem process_length_mismatch_rejected_witness :
    [cexBlockCtx].length ≠ ([] : List L2BlockL2Logs).length ∧
    process testEnv 1 2 initState [cexBlockCtx] [] =
      (initState, some Err.lengthMismatch) :=
  ⟨by decide, process_length_mismatch_rejected testEnv 1 2 initState [cexBlockCtx] []
    (by decide)⟩

/-- C4 counterexample: the claim `new syncedToBlock = max(old, last block
number)` is false on the code.  Processing the batch `[block 1]` from a state
already synced to block 5 succeeds and sets `syncedToBlock` to 1, which is
not `max 5 1` — a successful `process` call can decrease the watermark. -/
theorem process_watermark_decreases_cex :
    (process testEnv 1 2 highState [cexBlockCtx] [emptyBlockLogs]).2 = none ∧
    highState.syncedToBlock = 5 ∧
    lastBlockNumber [cexBlockCtx] = 1 ∧
    (process testEnv 1 2 highState [cexBlockCtx] [emptyBlockLogs]).1.syncedToBlock = 1 ∧
    ¬((process testEnv 1 2 highState [cexBlockCtx] [emptyBlockLogs]).1.syncedToBlock =
        max highState.syncedToBlock (lastBlockNumber [cexBlockCtx])) := by
  refine ⟨rfl, rfl, rfl, rfl, by decide⟩

/-- C4 (amended): for every non-empty batch on which `process` succeeds, the
new value of `syncedToBlock` equals the number of the last block in the
batch, unconditionally — it is a plain assignment, not a `max` with the old
watermark, so it can decrease. -/
theorem process_ok_sets_watermark_to_last (env : Env) (publicKey address : Nat)
    (s : NoteProcessorState) (blocks : List L2BlockContext) (logs : List L2BlockL2Logs)
    (s' : NoteProcessorState) (hne : blocks ≠ [])
    (h : process env publicKey address s blocks logs = (s', none)) :
    s'.syncedToBlock = lastBlockNumber blocks := by
  obtain ⟨-, s1, pds, s2, -, -, rfl⟩ :=
    process_ok_inv env publicKey address s blocks logs s' h hne
  rfl

/-- C4 witness: the amended claim at the concrete decreasing input — after
successfully processing `[block 1]` from watermark 5 the watermark equals 1,
the number of the batch's last block. -/
theorem process_ok_sets_watermark_to_last_witness :
    [cexBlockCtx] ≠ ([] : List L2BlockContext) ∧
    cexResultState.syncedToBlock = lastBlockNumber [cexBlockCtx] :=
  ⟨by decide, process_ok_sets_watermark_to_last testEnv 1 2 highState [cexBlockCtx]
    [emptyBlockLogs] cexResultState (by decide) (by decide)⟩

theorem scanFlat_ok_derivations (env : Env) (privateKey publicKey dataStart : Nat) :
    ∀ (l : List (Nat × Buffer)) (st st' : BlockScanState),
    scanFlat env privateKey publicKey dataStart l st = .ok st' →
    ∀ p ∈ l, ∀ nsi : NoteSpendingInfo, env.tryDecrypt p.2 privateKey = some nsi →
      ∃ n, computeSiloedNullifier env nsi = .ok n := by
  intro l
  induction l with
  | nil =>
    intro st st' h p hp
    simp at hp
  | cons q rest ih =>
    intro st st' h p hp nsi hdec
    obtain ⟨t, b⟩ := q
    rw [scanFlat] at h
    cases hd : env.tryDecrypt b privateKey with
    | none =>
      simp only [scanBuffer, hd] at h
      rcases List.mem_cons.mp hp with hp0 | hpr
      · subst hp0
        dsimp only at hdec
        rw [hd] at hdec
        cases hdec
      · exact ih _ _ h p hpr nsi hdec
    | some nsi0 =>
      simp only [scanBuffer, hd] at h
      cases hn : computeSiloedNullifier env nsi0 with
      | error e =>
        rw [hn] at h
        cases h
      | ok n =>
        rw [hn] at h
        rcases List.mem_cons.mp hp with hp0 | hpr
        · subst hp0
          dsimp only at hdec
          rw [hd] at hdec
          obtain rfl := Option.some.inj hdec
          exact ⟨n, hn⟩
        · exact ih _ _ h p hpr nsi hdec

theorem flatten_ne_of_mem {α β : Type} (f : α → List β) (l : List α) (x : α)
    (hx : x ∈ l) (hf : f x ≠ []) : (l.map f).flatten ≠ [] := by
  obtain ⟨b, hb⟩ := List.exists_mem_of_ne_nil (f x) hf
  exact List.ne_nil_of_mem (List.mem_flatten.mpr ⟨f x, List.mem_map_of_mem f hx, hb⟩)

theorem stepNotes_ok_switch (env : Env) (s : NoteProcessorState)
    (batch : List NoteSpendingInfoDao)
    (h : (if batch.isEmpty then (s, none) else issueAddNotes env s batch).2 = none)
    (hb : batch.isEmpty = false) : env.addNotesFails = false := by
  rw [hb] at h
  simp only [Bool.false_eq_true, if_false] at h
  exact (issueAddNotes_spec env s batch).2.2.1.mp h

theorem stepTxs_ok_switch (env : Env) (s : NoteProcessorState) (batch : List TxDao)
    (h : (if batch.isEmpty then (s, none) else issueAddTxs env s batch).2 = none)
    (hb : batch.isEmpty = false) : env.addTxsFails = false := by
  rw [hb] at h
  simp only [Bool.false_eq_true, if_false] at h
  exact (issueAddTxs_spec env s batch).2.2.1.mp h

theorem processBlocks_ok_insert_switches (env : Env) (publicKey address : Nat)
    (s s2 : NoteProcessorState) (pds : List ProcessedData)
    (h : processBlocksAndNoteSpendingInfo env publicKey address s pds = (s2, none)) :
    (((pds.map ProcessedData.noteSpendingInfoDaos).flatten).isEmpty = false →
      env.addNotesFails = false) ∧
    (((pds.map (buildTxDaos address)).flatten).isEmpty = false →
      env.addTxsFails = false) := by
  rw [processBlocksAndNoteSpendingInfo] at h
  cases h1 : (if ((pds.map ProcessedData.noteSpendingInfoDaos).flatten).isEmpty then (s, none)
      else issueAddNotes env s ((pds.map ProcessedData.noteSpendingInfoDaos).flatten)) with
  | mk s1 e1 =>
    rw [h1] at h
    cases e1 with
    | some e => simp at h
    | none =>
      dsimp only at h
      cases h2 : (if ((pds.map (buildTxDaos address)).flatten).isEmpty then (s1, none)
          else issueAddTxs env s1 ((pds.map (buildTxDaos address)).flatten)) with
      | mk s2' e2 =>
        rw [h2] at h
        cases e2 with
        | some e => simp at h
        | none =>
          refine ⟨fun hb => stepNotes_ok_switch env s _ (by rw [h1]) hb,
            fun hb => stepTxs_ok_switch env s1 _ (by rw [h2]) hb⟩

theorem process_ok_scan (env : Env) (publicKey address : Nat) (s : NoteProcessorState)
    (blocks : List L2BlockContext) (logs : List L2BlockL2Logs)
    (s' : NoteProcessorState) (hne : blocks ≠ [])
    (h : process env publicKey address s blocks logs = (s', none))
    (i : Nat) (pair : L2BlockContext × L2BlockL2Logs)
    (hp : (blocks.zip logs)[i]? = some pair) :
    ∃ (privateKey : Nat) (st : BlockScanState) (pds : List ProcessedData)
      (s1 s2 : NoteProcessorState),
      env.getAccountPrivateKey publicKey = .ok privateKey ∧
      scanFlat env privateKey publicKey
        pair.1.block.startPrivateDataTreeSnapshot.nextAvailableLeafIndex
        (flattenBlockLogs pair.2)
        { pertaining := [], daos := [], counter := 0 } = .ok st ∧
      pds[i]? = some { blockContext := pair.1, userPertainingTxIndices := st.pertaining,
                       noteSpendingInfoDaos := st.daos } ∧
      processBlocksAndNoteSpendingInfo env publicKey address s1 pds = (s2, none) := by
  obtain ⟨-, s1, pds, s2, h1, h2, -⟩ :=
    process_ok_inv env publicKey address s blocks logs s' h hne
  obtain ⟨-, -, hall⟩ := phase1_ok env publicKey (blocks.zip logs) s s1 pds h1
  obtain ⟨privateKey, st, hk, hs, hpd⟩ := hall i pair hp
  rw [scanBlockLogs_eq_scanFlat] at hs
  exact ⟨privateKey, st, pds, s1, s2, hk, hs, hpd, h2⟩

/-- C3: every failing `process` call propagates its failure to the caller and
leaves `syncedToBlock` exactly as it was (conjunct 1: any propagated error
implies an unchanged watermark), and each of the claim's failure sources
makes `process` fail: a failing private-key fetch propagates as that very
error (conjunct 2); a failing siloed-nullifier derivation for any log of the
batch that decrypts under the fetched key fails the call — no candidate is
silently dropped (conjunct 3); a failing note-batch insert fails the call
whenever some log decrypts, i.e. whenever the insert is reached with a
non-empty batch (conjunct 4); likewise a failing tx-batch insert
(conjunct 5); and a failing nullified-note removal fails every non-empty
batch (conjunct 6) — so there is never a partial watermark advance. -/
theorem process_failure_propagates_and_keeps_watermark (env : Env)
    (publicKey address : Nat) (s : NoteProcessorState)
    (blocks : List L2BlockContext) (logs : List L2BlockL2Logs) :
    (∀ (s' : NoteProcessorState) (e : Err),
      process env publicKey address s blocks logs = (s', some e) →
      s'.syncedToBlock = s.syncedToBlock) ∧
    (blocks.length = logs.length → blocks ≠ [] →
      ∀ e : Err, env.getAccountPrivateKey publicKey = .error e →
        (process env publicKey address s blocks logs).2 = some e) ∧
    (blocks.length = logs.length → blocks ≠ [] →
      ∀ (privateKey i : Nat) (pair : L2BlockContext × L2BlockL2Logs)
        (p : Nat × Buffer) (nsi : NoteSpendingInfo) (e : Err),
        env.getAccountPrivateKey publicKey = .ok privateKey →
        (blocks.zip logs)[i]? = some pair →
        p ∈ flattenBlockLogs pair.2 →
        env.tryDecrypt p.2 privateKey = some nsi →
        computeSiloedNullifier env nsi = .error e →
        (process env publicKey address s blocks logs).2.isSome = true) ∧
    (blocks.length = logs.length → blocks ≠ [] → env.addNotesFails = true →
      ∀ (privateKey i : Nat) (pair : L2BlockContext × L2BlockL2Logs)
        (p : Nat × Buffer),
        env.getAccountPrivateKey publicKey = .ok privateKey →
        (blocks.zip logs)[i]? = some pair →
        p ∈ flattenBlockLogs pair.2 →
        decryptsWith env privateKey p = true →
        (process env publicKey address s blocks logs).2.isSome = true) ∧
    (blocks.length = logs.length → blocks ≠ [] → env.addTxsFails = true →
      ∀ (privateKey i : Nat) (pair : L2BlockContext × L2BlockL2Logs)
        (p : Nat × Buffer),
        env.getAccountPrivateKey publicKey = .ok privateKey →
        (blocks.zip logs)[i]? = some pair →
        p ∈ flattenBlockLogs pair.2 →
        decryptsWith env privateKey p = true →
        (process env publicKey address s blocks logs).2.isSome = true) ∧
    (blocks.length = logs.length → blocks ≠ [] → env.removeFails = true →
      (process env publicKey address s blocks logs).2.isSome = true) := by
  refine ⟨?_, ?_, ?_, ?_, ?_, ?_⟩
  · intro s' e h
    exact process_err_syncedToBlock env publicKey address s blocks logs s' e h
  · intro hlen hne e hkey
    cases blocks with
    | nil => exact absurd rfl hne
    | cons b bs =>
      cases logs with
      | nil => simp at hlen
      | cons l ls =>
        rw [process, if_neg (by omega), if_neg (by simp), List.zip_cons_cons, phase1]
        simp only [phase1Step, hkey]
  · intro hlen hne privateKey i pair p nsi e hkey hpz hpmem hdec hderiv
    cases hres : process env publicKey address s blocks logs with
    | mk s' r =>
      cases r with
      | some e2 => rfl
      | none =>
        exfalso
        obtain ⟨pk2, st, pds, s1, s2, hk, hs, hpd, h2⟩ :=
          process_ok_scan env publicKey address s blocks logs s' hne hres i pair hpz
        rw [hkey] at hk
        obtain rfl := Except.ok.inj hk
        obtain ⟨n, hn⟩ :=
          scanFlat_ok_derivations env privateKey publicKey _ _ _ _ hs p hpmem nsi hdec
        rw [hderiv] at hn
        cases hn
  · intro hlen hne hsw privateKey i pair p hkey hpz hpmem hdec
    cases hres : process env publicKey address s blocks logs with
    | mk s' r =>
      cases r with
      | some e2 => rfl
      | none =>
        exfalso
        obtain ⟨pk2, st, pds, s1, s2, hk, hs, hpd, h2⟩ :=
          process_ok_scan env publicKey address s blocks logs s' hne hres i pair hpz
        rw [hkey] at hk
        obtain rfl := Except.ok.inj hk
        obtain ⟨-, -, hdlen, -⟩ :=
          scanFlat_ok env privateKey publicKey _ (flattenBlockLogs pair.2) _ _ hs
        dsimp only at hdlen
        have hpf : p ∈ (flattenBlockLogs pair.2).filter (decryptsWith env privateKey) :=
          List.mem_filter.mpr ⟨hpmem, hdec⟩
        have hdne : st.daos ≠ [] := by
          intro hd
          rw [hd] at hdlen
          have hfl : ((flattenBlockLogs pair.2).filter
              (decryptsWith env privateKey)).length = 0 := by
            simpa using hdlen.symm
          rw [List.length_eq_zero.mp hfl] at hpf
          exact absurd hpf (List.not_mem_nil p)
        obtain ⟨hlt, heq⟩ := List.getElem?_eq_some.mp hpd
        have hpdmem := List.getElem_mem hlt
        rw [heq] at hpdmem
        have hnb := flatten_ne_of_mem ProcessedData.noteSpendingInfoDaos pds _ hpdmem hdne
        have hne2 : ((pds.map ProcessedData.noteSpendingInfoDaos).flatten).isEmpty = false := by
          cases hie : ((pds.map ProcessedData.noteSpendingInfoDaos).flatten).isEmpty with
          | false => rfl
          | true => exact absurd (List.isEmpty_iff.mp hie) hnb
        have := (processBlocks_ok_insert_switches env publicKey address s1 s2 pds h2).1 hne2
        rw [this] at hsw
        cases hsw
  · intro hlen hne hsw privateKey i pair p hkey hpz hpmem hdec
    cases hres : process env publicKey address s blocks logs with
    | mk s' r =>
      cases r with
      | some e2 => rfl
      | none =>
        exfalso
        obtain ⟨pk2, st, pds, s1, s2, hk, hs, hpd, h2⟩ :=
          process_ok_scan env publicKey address s blocks logs s' hne hres i pair hpz
        rw [hkey] at hk
        obtain rfl := Except.ok.inj hk
        obtain ⟨-, -, -, hpert⟩ :=
          scanFlat_ok env privateKey publicKey _ (flattenBlockLogs pair.2) _ _ hs
        dsimp only at hpert
        have hpf : p ∈ (flattenBlockLogs pair.2).filter (decryptsWith env privateKey) :=
          List.mem_filter.mpr ⟨hpmem, hdec⟩
        have hmt : p.1 ∈ matchedTxIndices env privateKey (flattenBlockLogs pair.2) := by
          rw [matchedTxIndices]
          exact List.mem_map_of_mem Prod.fst hpf
        have hpmem2 : p.1 ∈ st.pertaining := by
          rw [hpert]
          exact (mem_foldl_insertPertaining _ _ _).mpr (Or.inr hmt)
        have hpne : st.pertaining ≠ [] := List.ne_nil_of_mem hpmem2
        obtain ⟨hlt, heq⟩ := List.getElem?_eq_some.mp hpd
        have hpdmem := List.getElem_mem hlt
        rw [heq] at hpdmem
        have hbne : buildTxDaos address
            { blockContext := pair.1, userPertainingTxIndices := st.pertaining,
              noteSpendingInfoDaos := st.daos } ≠ [] := by
          intro hbd
          have hlb : (buildTxDaos address
              { blockContext := pair.1, userPertainingTxIndices := st.pertaining,
                noteSpendingInfoDaos := st.daos }).length = st.pertaining.length := by
            simp [buildTxDaos]
          rw [hbd] at hlb
          exact hpne (List.length_eq_zero.mp hlb.symm)
        have htb := flatten_ne_of_mem (buildTxDaos address) pds _ hpdmem hbne
        have hne2 : ((pds.map (buildTxDaos address)).flatten).isEmpty = false := by
          cases hie : ((pds.map (buildTxDaos address)).flatten).isEmpty with
          | false => rfl
          | true => exact absurd (List.isEmpty_iff.mp hie) htb
        have := (processBlocks_ok_insert_switches env publicKey address s1 s2 pds h2).2 hne2
        rw [this] at hsw
        cases hsw
  · intro hlen hne hrem
    cases hp : process env publicKey address s blocks logs with
    | mk s' r =>
      cases r with
      | some e => rfl
      | none =>
        exfalso
        obtain ⟨-, s1, pds, s2, -, h2, -⟩ :=
          process_ok_inv env publicKey address s blocks logs s' hp hne
        have hfalse := (processBlocks_ok env publicKey address s1 s2 pds h2).1
        rw [hfalse] at hrem
        cases hrem

/-- C3 witness: at concrete inputs — a failing key fetch on a one-block batch
propagates `keyNotFound` while the watermark stays at 5; and on the batch
`[witBlock]`, whose first buffer decrypts, a failing nullifier derivation, a
failing note insert, a failing tx insert and a failing removal each make
`process` fail. -/
theorem process_failure_propagates_and_keeps_watermark_witness :
    (process failKeyEnv 1 2 highState [cexBlockCtx] [emptyBlockLogs]).2 =
      some Err.keyNotFound ∧
    keyFailState.syncedToBlock = highState.syncedToBlock ∧
    (process failDeriveEnv 1 2 initState [witBlockCtx] [witBlockLogs]).2.isSome = true ∧
    (process failAddNotesEnv 1 2 initState [witBlockCtx] [witBlockLogs]).2.isSome = true ∧
    (process failAddTxsEnv 1 2 initState [witBlockCtx] [witBlockLogs]).2.isSome = true ∧
    (process failRemoveEnv 1 2 initState [witBlockCtx] [witBlockLogs]).2.isSome = true :=
  ⟨(process_failure_propagates_and_keeps_watermark failKeyEnv 1 2 highState
      [cexBlockCtx] [emptyBlockLogs]).2.1 rfl (by decide) Err.keyNotFound rfl,
   (process_failure_propagates_and_keeps_watermark failKeyEnv 1 2 highState
      [cexBlockCtx] [emptyBlockLogs]).1 keyFailState Err.keyNotFound (by decide),
   (process_failure_propagates_and_keeps_watermark failDeriveEnv 1 2 initState
      [witBlockCtx] [witBlockLogs]).2.2.1 rfl (by decide) 42 0
      (witBlockCtx, witBlockLogs) (0, [1]) testNSI Err.cryptoError rfl rfl
      (by decide) rfl rfl,
   (process_failure_propagates_and_keeps_watermark failAddNotesEnv 1 2 initState
      [witBlockCtx] [witBlockLogs]).2.2.2.1 rfl (by decide) rfl 42 0
      (witBlockCtx, witBlockLogs) (0, [1]) rfl rfl (by decide) rfl,
   (process_failure_propagates_and_keeps_watermark failAddTxsEnv 1 2 initState
      [witBlockCtx] [witBlockLogs]).2.2.2.2.1 rfl (by decide) rfl 42 0
      (witBlockCtx, witBlockLogs) (0, [1]) rfl rfl (by decide) rfl,
   (process_failure_propagates_and_keeps_watermark failRemoveEnv 1 2 initState
      [witBlockCtx] [witBlockLogs]).2.2.2.2.2 rfl (by decide) rfl⟩

/-- C1: after any successful `process` call, no note owned by the engine's
public key whose nullifier appears in the batch's accumulated new-nullifier
lists remains in the store — in particular a note created and then nullified
within the same processed batch is removed. -/
theorem process_removes_same_batch_nullified (env : Env) (publicKey address : Nat)
    (s : NoteProcessorState) (blocks : List L2BlockContext) (logs : List L2BlockL2Logs)
    (s' : NoteProcessorState)
    (h : process env publicKey address s blocks logs = (s', none)) :
    ∀ dao ∈ s'.db.notes, dao.publicKey = publicKey →
      dao.nullifier ∉ (blocks.map fun ctx => ctx.block.newNullifiers).flatten := by
  by_cases hne : blocks = []
  · subst hne
    simp
  · obtain ⟨hlen, s1, pds, s2, h1, h2, rfl⟩ :=
      process_ok_inv env publicKey address s blocks logs s' h hne
    obtain ⟨-, -, hnotes, -⟩ := processBlocks_ok env publicKey address s1 s2 pds h2
    have hbc := (phase1_ok env publicKey (blocks.zip logs) s s1 pds h1).2.1
    have hmap : (pds.map fun pd => pd.blockContext.block.newNullifiers) =
        blocks.map fun ctx => ctx.block.newNullifiers := by
      have hfst : pds.map ProcessedData.blockContext = blocks := by
        rw [hbc]
        exact List.map_fst_zip blocks logs (le_of_eq hlen)
      rw [← hfst, List.map_map]
      rfl
    intro dao hdao hpk hmem
    dsimp only at hdao
    rw [hnotes, hmap] at hdao
    obtain ⟨-, hpred⟩ := List.mem_filter.mp hdao
    simp [hpk, hmem] at hpred

/-- C1 witness: the same-batch-spend scenario — block 7 creates two notes
whose nullifier 1114 is in block 7's own nullifier list; after the batch no
note for the engine's key with that nullifier remains (the store's note list
is empty). -/
theorem process_removes_same_batch_nullified_witness :
    process testEnv 1 2 initState [witBlockCtx] [witBlockLogs] = (witResultState, none) ∧
    (∀ dao ∈ witResultState.db.notes, dao.publicKey = 1 →
      dao.nullifier ∉ ([witBlockCtx].map fun ctx => ctx.block.newNullifiers).flatten) :=
  ⟨by decide,
   process_removes_same_batch_nullified testEnv 1 2 initState [witBlockCtx] [witBlockLogs]
     witResultState (by decide)⟩

/-- C6: for a block whose logs contain N buffers of which exactly K decrypt
under the engine's private key, the scan produces exactly K note records
(every matched candidate individually retained, in decryption order) and its
pertaining-transaction index list holds exactly the distinct transaction
indices of those K logs, without duplicates. -/
theorem scanBlockLogs_selectivity (env : Env) (privateKey publicKey dataStart : Nat)
    (bl : L2BlockL2Logs) (st : BlockScanState)
    (h : scanBlockLogs env privateKey publicKey dataStart bl = .ok st) :
    st.daos.length =
      ((flattenBlockLogs bl).filter (decryptsWith env privateKey)).length ∧
    st.pertaining.Nodup ∧
    ∀ t : Nat, t ∈ st.pertaining ↔
      t ∈ matchedTxIndices env privateKey (flattenBlockLogs bl) := by
  rw [scanBlockLogs_eq_scanFlat] at h
  obtain ⟨-, -, hlen, hpert⟩ :=
    scanFlat_ok env privateKey publicKey dataStart (flattenBlockLogs bl) _ _ h
  dsimp only at hlen hpert
  refine ⟨by simpa using hlen, ?_, ?_⟩
  · rw [hpert]
    exact nodup_foldl_insertPertaining _ _ List.nodup_nil
  · intro t
    rw [hpert, mem_foldl_insertPertaining]
    simp

/-- C6 witness: `witBlockLogs` holds three buffers of which two decrypt under
`testEnv`; the scan yields two note records and pertaining indices `[0]`. -/
theorem scanBlockLogs_selectivity_witness :
    scanBlockLogs testEnv 42 1 100 witBlockLogs =
      .ok { pertaining := [0], daos := witDaos, counter := 3 } ∧
    (witDaos.length =
      ((flattenBlockLogs witBlockLogs).filter (decryptsWith testEnv 42)).length ∧
    ([0] : List Nat).Nodup ∧
    ∀ t : Nat, t ∈ ([0] : List Nat) ↔
      t ∈ matchedTxIndices testEnv 42 (flattenBlockLogs witBlockLogs)) :=
  ⟨rfl, scanBlockLogs_selectivity testEnv 42 1 100 witBlockLogs
    { pertaining := [0], daos := witDaos, counter := 3 } rfl⟩

/-- C2: for every block of a batch accepted by the per-block loop, the leaf
indices of that block's note records are exactly `dataStartIndexForBlock + i`
for each buffer at flat position `i` that decrypts, where `i` counts every
raw log buffer of the block (matched or not) in the fixed nested iteration
order with a single running counter over the whole block. -/
theorem phase1_assigns_leaf_indices (env : Env) (publicKey : Nat)
    (pairs : List (L2BlockContext × L2BlockL2Logs)) (s s' : NoteProcessorState)
    (pds : List ProcessedData) (h : phase1 env publicKey s pairs = (s', .ok pds))
    (i : Nat) (pair : L2BlockContext × L2BlockL2Logs) (hp : pairs[i]? = some pair)
    (pd : ProcessedData) (hpd : pds[i]? = some pd) :
    ∃ privateKey, env.getAccountPrivateKey publicKey = .ok privateKey ∧
      pd.noteSpendingInfoDaos.map NoteSpendingInfoDao.index =
        (((flattenBlockLogs pair.2).enumFrom
            pair.1.block.startPrivateDataTreeSnapshot.nextAvailableLeafIndex).filter
          fun q => decryptsWith env privateKey q.2).map Prod.fst := by
  obtain ⟨-, -, hall⟩ := phase1_ok env publicKey pairs s s' pds h
  obtain ⟨privateKey, st, hk, hs, hpd'⟩ := hall i pair hp
  rw [hpd] at hpd'
  obtain rfl := Option.some.inj hpd'
  rw [scanBlockLogs_eq_scanFlat] at hs
  obtain ⟨-, hidx, -, -⟩ :=
    scanFlat_ok env privateKey publicKey
      pair.1.block.startPrivateDataTreeSnapshot.nextAvailableLeafIndex
      (flattenBlockLogs pair.2) _ _ hs
  simp only [List.map_nil, List.nil_append, Nat.add_zero] at hidx
  rw [matchedIndices_eq_enumFrom] at hidx
  exact ⟨privateKey, hk, hidx⟩

/-- C2 witness: for `witBlock` (data start 100) and its three buffers of
which the first and third decrypt, the note records carry leaf indices
`[100, 102]`. -/
theorem phase1_assigns_leaf_indices_witness :
    phase1 testEnv 1 initState [(witBlockCtx, witBlockLogs)] =
      ({ initState with trace := [Event.getKey 1] }, .ok [witPD]) ∧
    (∃ privateKey, testEnv.getAccountPrivateKey 1 = .ok privateKey ∧
      witPD.noteSpendingInfoDaos.map NoteSpendingInfoDao.index =
        (((flattenBlockLogs witBlockLogs).enumFrom
            witBlockCtx.block.startPrivateDataTreeSnapshot.nextAvailableLeafIndex).filter
          fun q => decryptsWith testEnv privateKey q.2).map Prod.fst) :=
  ⟨rfl,
   phase1_assigns_leaf_indices testEnv 1 [(witBlockCtx, witBlockLogs)] initState
     { initState with trace := [Event.getKey 1] } [witPD] rfl 0
     (witBlockCtx, witBlockLogs) rfl witPD rfl⟩

/-- C5: for every pertaining transaction index of every block accepted by the
per-block loop, exactly one `TxDao` is built (one per pertaining index, in
order), its origin is the engine's associated address, its deployed-contract
address is set if and only if the transaction's first declared
contract-deployment entry is non-zero, and the pertaining transaction indeed
produced at least one log that decrypts for the engine (so the engine owns a
note from it). -/
theorem phase1_builds_one_txdao_per_pertaining_tx (env : Env) (publicKey address : Nat)
    (pairs : List (L2BlockContext × L2BlockL2Logs)) (s s' : NoteProcessorState)
    (pds : List ProcessedData) (h : phase1 env publicKey s pairs = (s', .ok pds))
    (i : Nat) (pair : L2BlockContext × L2BlockL2Logs) (hp : pairs[i]? = some pair)
    (pd : ProcessedData) (hpd : pds[i]? = some pd) :
    ∃ privateKey, env.getAccountPrivateKey publicKey = .ok privateKey ∧
      (buildTxDaos address pd).length = pd.userPertainingTxIndices.length ∧
      ∀ (j txIndex : Nat) (dao : TxDao),
        pd.userPertainingTxIndices[j]? = some txIndex →
        (buildTxDaos address pd)[j]? = some dao →
        dao.origin = address ∧
        (dao.contractAddress.isSome ↔
          firstContractAddress pd.blockContext.block txIndex ≠ 0) ∧
        txIndex ∈ matchedTxIndices env privateKey (flattenBlockLogs pair.2) := by
  obtain ⟨-, -, hall⟩ := phase1_ok env publicKey pairs s s' pds h
  obtain ⟨privateKey, st, hk, hs, hpd'⟩ := hall i pair hp
  rw [hpd] at hpd'
  obtain rfl := Option.some.inj hpd'
  rw [scanBlockLogs_eq_scanFlat] at hs
  obtain ⟨-, -, hlen, hpert⟩ :=
    scanFlat_ok env privateKey publicKey
      pair.1.block.startPrivateDataTreeSnapshot.nextAvailableLeafIndex
      (flattenBlockLogs pair.2) _ _ hs
  dsimp only at hlen hpert
  refine ⟨privateKey, hk, by simp [buildTxDaos], ?_⟩
  intro j txIndex dao hj hdao
  rw [buildTxDaos, List.getElem?_map, List.getElem?_enum] at hdao
  dsimp only at hj
  rw [hj] at hdao
  rw [Option.map_some', Option.map_some'] at hdao
  obtain rfl := Option.some.inj hdao
  refine ⟨rfl, ?_, ?_⟩
  · by_cases hc : firstContractAddress pair.1.block txIndex ≠ 0
    · obtain ⟨hjlt, -⟩ := List.getElem?_eq_some.mp hj
      have hple : st.pertaining.length ≤ st.daos.length := by
        rw [hpert, hlen]
        have hfold := length_foldl_insertPertaining
          (matchedTxIndices env privateKey (flattenBlockLogs pair.2)) []
        simp only [List.length_nil, Nat.zero_add] at hfold ⊢
        simpa [matchedTxIndices] using hfold
      have hjd : j < st.daos.length := lt_of_lt_of_le hjlt hple
      simp [hc, List.getElem?_eq_getElem hjd]
    · simp [hc]
  · have hmem : txIndex ∈ st.pertaining := by
      obtain ⟨hl, rfl⟩ := List.getElem?_eq_some.mp hj
      exact List.getElem_mem hl
    rw [hpert, mem_foldl_insertPertaining] at hmem
    simpa using hmem

/-- C5 witness: for `witBlock` — pertaining indices `[0]`, a non-zero first
contract-deployment entry — exactly one `TxDao` is built, with origin 2 and
deployed-contract address set. -/
theorem phase1_builds_one_txdao_per_pertaining_tx_witness :
    phase1 testEnv 1 initState [(witBlockCtx, witBlockLogs)] =
      ({ initState with trace := [Event.getKey 1] }, .ok [witPD]) ∧
    (∃ privateKey, testEnv.getAccountPrivateKey 1 = .ok privateKey ∧
      (buildTxDaos 2 witPD).length = witPD.userPertainingTxIndices.length ∧
      ∀ (j txIndex : Nat) (dao : TxDao),
        witPD.userPertainingTxIndices[j]? = some txIndex →
        (buildTxDaos 2 witPD)[j]? = some dao →
        dao.origin = 2 ∧
        (dao.contractAddress.isSome ↔
          firstContractAddress witPD.blockContext.block txIndex ≠ 0) ∧
        txIndex ∈ matchedTxIndices testEnv privateKey (flattenBlockLogs witBlockLogs)) :=
  ⟨rfl,
   phase1_builds_one_txdao_per_pertaining_tx testEnv 1 2 [(witBlockCtx, witBlockLogs)]
     initState { initState with trace := [Event.getKey 1] } [witPD] rfl 0
     (witBlockCtx, witBlockLogs) rfl witPD rfl⟩

/-- C8: within every successfully processed non-empty batch the collaborator
calls appear in the trace in the fixed order: the per-block key fetches,
then the note-batch insert (issued when there are accumulated notes), then
the tx-batch insert (issued when there are accumulated txs), then — always
last, after both inserts — the single removal of nullified notes for the
engine's public key.  Each step in the model completes before the next is
recorded, so the removal is never issued before the inserts. -/
theorem process_persistence_order (env : Env) (publicKey address : Nat)
    (s : NoteProcessorState) (blocks : List L2BlockContext) (logs : List L2BlockL2Logs)
    (s' : NoteProcessorState) (hne : blocks ≠ [])
    (h : process env publicKey address s blocks logs = (s', none)) :
    ∃ (noteBatch : List NoteSpendingInfoDao) (txBatch : List TxDao) (nulls : List Nat),
      s'.trace = s.trace ++ List.replicate blocks.length (Event.getKey publicKey) ++
        (if noteBatch.isEmpty then [] else [Event.addNotes noteBatch]) ++
        (if txBatch.isEmpty then [] else [Event.addTxs txBatch]) ++
        [Event.removeNullified nulls publicKey] := by
  obtain ⟨hlen, s1, pds, s2, h1, h2, rfl⟩ :=
    process_ok_inv env publicKey address s blocks logs s' h hne
  obtain ⟨-, -, -, htrace⟩ := processBlocks_ok env publicKey address s1 s2 pds h2
  obtain ⟨-, -, n, -, htr1, hok⟩ := phase1_frame env publicKey (blocks.zip logs) s
  rw [h1] at htr1 hok
  dsimp only at htr1 hok
  have hn : n = (blocks.zip logs).length := hok pds rfl
  have hz : (blocks.zip logs).length = blocks.length := by
    rw [List.length_zip, hlen, Nat.min_self]
  refine ⟨(pds.map ProcessedData.noteSpendingInfoDaos).flatten,
    (pds.map (buildTxDaos address)).flatten,
    (pds.map fun pd => pd.blockContext.block.newNullifiers).flatten, ?_⟩
  show s2.trace = _
  rw [htrace, htr1, hn, hz]

/-- C8 witness: the concrete batch `[witBlock]` produces the trace key fetch,
note insert, tx insert, removal — in that order. -/
theorem process_persistence_order_witness :
    [witBlockCtx] ≠ ([] : List L2BlockContext) ∧
    ∃ (noteBatch : List NoteSpendingInfoDao) (txBatch : List TxDao) (nulls : List Nat),
      witResultState.trace = initState.trace ++
        List.replicate [witBlockCtx].length (Event.getKey 1) ++
        (if noteBatch.isEmpty then [] else [Event.addNotes noteBatch]) ++
        (if txBatch.isEmpty then [] else [Event.addTxs txBatch]) ++
        [Event.removeNullified nulls 1] :=
  ⟨by decide, process_persistence_order testEnv 1 2 initState [witBlockCtx] [witBlockLogs]
    witResultState (by decide) (by decide)⟩

end NoteProc
